import Mathlib

/-!
Verification development for the Event-Flow-Orchestration workflow engine.

The definitions below are a shallow embedding of the JavaScript sources:
  * `src/engine/processus.js`  — scheduler, task execution, reference resolution
  * `src/engine/api.js`        — public API
  * `src/engine/persistence/file.js` and `mongo.js` — persistence backends

JavaScript objects holding tasks are modelled by insertion-ordered association
lists `List (String × Task)`; an absent (`undefined`) field is `none`.
Asynchronous callbacks are modelled by direct-style return values, and
`Date.now()` by an explicit `now : Int` parameter.  The batch dispatched by
`async.parallel` is modelled as running every queued task once, in queue
order, with the batch error being the first error reported in that order
(a deterministic interleaving of the concurrent dispatch).
-/

set_option maxHeartbeats 1000000

namespace EventFlow

/-- Primitive JavaScript values as they appear in condition fields
(`blocking`, `skipIf`, `errorIf`, `ignoreError`) and task parameters:
booleans, strings and (integer) numbers.  `none` at use sites models
`undefined`. -/
inductive CVal where
  | b (x : Bool)
  | s (x : String)
  | n (x : Int)
deriving Repr, DecidableEq

/-- `getBoolean` from `engine/processus.js`: booleans pass through, strings
compare lower-cased against `"true"`, numbers are truthy iff nonzero, and
everything else (including `undefined`) is `false`. -/
def getBoolean : Option CVal → Bool
  | some (CVal.b x) => x
  | some (.s x) => x.toLower == "true"
  | some (.n x) => x != 0
  | none => false

/-- JavaScript truthiness of an optional string field (used for
`!taskObject.handler`): absent and the empty string are falsy. -/
def strTruthy : Option String → Bool
  | none => false
  | some s => s ≠ ""

/-- The non-recursive fields of a task object (`§3` of the spec, as read and
written by `engine/processus.js`). -/
structure TaskCore where
  status : Option String := none
  handler : Option String := none
  parameters : Option CVal := none
  blocking : Option CVal := none
  skipIf : Option CVal := none
  errorIf : Option CVal := none
  ignoreError : Option CVal := none
  timeOpened : Option Int := none
  timeStarted : Option Int := none
  timeCompleted : Option Int := none
  handlerDuration : Option Int := none
  totalDuration : Option Int := none
  handlerExecuted : Option Bool := none
  errorMsg : Option String := none
deriving Repr, DecidableEq

/-- A task node: its scalar fields plus the optional child mapping
`task.tasks`.  `none` children model an absent `tasks` property (falsy in
JavaScript), `some []` models an empty `{}` object (truthy). -/
inductive Task where
  | node (core : TaskCore) (children : Option (List (String × Task)))
deriving Repr

def Task.core : Task → TaskCore
  | .node c _ => c

def Task.children : Task → Option (List (String × Task))
  | .node _ cs => cs

def Task.mapCore (f : TaskCore → TaskCore) : Task → Task
  | .node c cs => .node (f c) cs

def Task.withChildren (cs : Option (List (String × Task))) : Task → Task
  | .node c _ => .node c cs

/-- Pre-order flattening of a task tree, the visit order of
`scanAllTasks(tasks, true, cb)` in `engine/processus.js`. -/
def deepTasksL : List (String × Task) → List (String × Task)
  | [] => []
  | (n, Task.node c none) :: rest => (n, Task.node c none) :: deepTasksL rest
  | (n, Task.node c (some cs)) :: rest =>
      (n, Task.node c (some cs)) :: (deepTasksL cs ++ deepTasksL rest)

/-- First-match lookup in an insertion-ordered association list (JavaScript
object property access; keys are unique per object in the source). -/
def lookupA {α : Type} : List (String × α) → String → Option α
  | [], _ => none
  | (n, v) :: rest, k => if n = k then some v else lookupA rest k

/-- Replace the value of the first entry with the given key, keeping its
position (JavaScript property overwrite). -/
def replaceA {α : Type} : List (String × α) → String → α → List (String × α)
  | [], _, _ => []
  | (n, v) :: rest, k, w => if n = k then (n, w) :: rest else (n, v) :: replaceA rest k w

/-- `obj[key] = value` on a JavaScript object: overwrite in place if the key
exists, else append (insertion order preserved). -/
def jsObjInsert {α : Type} (xs : List (String × α)) (k : String) (v : α) : List (String × α) :=
  if (lookupA xs k).isSome then replaceA xs k v else xs ++ [(k, v)]

/-- `isBlocking` from `engine/processus.js`: boolean coercion of
`task.blocking`. -/
def isBlocking (c : TaskCore) : Bool := getBoolean c.blocking

/-- `setConditionValues` from `engine/processus.js`: coerce `skipIf` and
`errorIf` to booleans when they are defined. -/
def setConditionValues (c : TaskCore) : TaskCore :=
  let c1 := match c.skipIf with
    | none => c
    | some v => { c with skipIf := some (CVal.b (getBoolean (some v))) }
  match c1.errorIf with
  | none => c1
  | some v => { c1 with errorIf := some (CVal.b (getBoolean (some v))) }

/-- `childHasStatus(parent, status, all)` from `engine/processus.js`.  An
absent or empty child mapping yields `false` (the function requires at least
one checked task); otherwise, with `all` it asks that every deeply reachable
task have the status (the source's early exit at the first mismatch), and
without `all` that some task have it. -/
def childHasStatusB (children : Option (List (String × Task))) (status : String) (all : Bool) : Bool :=
  match children with
  | none => false
  | some [] => false
  | some cs =>
      if all then (deepTasksL cs).all (fun nt => nt.2.core.status == some status)
      else (deepTasksL cs).any (fun nt => nt.2.core.status == some status)

/-- Subtraction on optional integers: `undefined` operands give `NaN` in
JavaScript, modelled as `none`. -/
def osub : Option Int → Option Int → Option Int
  | some a, some b => some (a - b)
  | _, _ => none

/-- A task handler under the invocation contract of `§4.D`: it receives the
workflow id, the task's local name and the task object, and reports
`(error, returnedTask)` to the completion sink.  The model applies the
returned task back to the tree node, reflecting that handlers mutate and
return the very task object they are given. -/
def HandlerFn : Type := String → String → Task → (Option String × Task)

/-- The pool of loadable handler modules, keyed by `task.handler`.  `none`
models a failed dynamic import or a module without a default function. -/
def Handlers : Type := String → Option HandlerFn

/-- The skip decision of `executeTask` in `engine/processus.js`
(lines 220–224): a task is skipped iff `skipIf === true`, `errorIf === true`,
or its `handler` field is falsy. -/
def skipCheck (c : TaskCore) : Bool :=
  (c.skipIf == some (CVal.b true)) || (c.errorIf == some (CVal.b true)) || !(strTruthy c.handler)

/-- Fixed stand-in for the message of the exception thrown while importing a
missing or malformed handler module. -/
def importFailMsg : String := "Handler module must export a default function"

/-- `executeTask` from `engine/processus.js`: stamp `timeStarted`, decide the
skip condition, set `handlerExecuted`, then either invoke the handler and
post-process its result (error / `ignoreError` / completion / pause
bookkeeping) or run the skip branch (possible `errorIf` error, completion of
a task still `executing`). -/
def executeTask (now : Int) (hs : Handlers) (wfId tname : String) (t0 : Task) :
    Option String × Task :=
  let t1 := t0.mapCore fun c => { c with timeStarted := some now }
  let skip := skipCheck t1.core
  let t2 := t1.mapCore fun c => { c with handlerExecuted := some (!skip) }
  if !skip then
    match t2.core.handler.bind hs with
    | none =>
        let t3 := t2.mapCore fun c => { c with errorMsg := some importFailMsg, status := some "error" }
        (some ("Missing module or unexpected error! " ++ importFailMsg), t3)
    | some h =>
        let er := h wfId tname t2
        let step1 :=
          match er.1 with
          | some m =>
              let r := er.2.mapCore fun c => { c with errorMsg := some m, status := some "error" }
              if r.core.ignoreError == some (CVal.b true) then
                (none, r.mapCore fun c => { c with status := some "executing" })
              else (some m, r)
          | none => (none, er.2)
        let rt1 := step1.2
        let rt2 :=
          if rt1.core.status == some "executing" then
            rt1.mapCore fun c =>
              { c with status := some "completed", timeCompleted := some now,
                       handlerDuration := osub (some now) c.timeStarted,
                       totalDuration := osub (some now) c.timeOpened }
          else rt1
        let rt3 :=
          if rt2.core.status == some "paused" then
            rt2.mapCore fun c => { c with handlerDuration := osub (some now) c.timeStarted }
          else rt2
        (step1.1, rt3)
  else
    let step :=
      if t2.core.errorIf == some (CVal.b true) then
        let m := "Task [" ++ tname ++ "] has error condition set."
        (some m, t2.mapCore fun c => { c with errorMsg := some m, status := some "error" })
      else (none, t2)
    let t3 := step.2
    let t4 :=
      if t3.core.status == some "executing" then
        t3.mapCore fun c =>
          { c with status := some "completed", timeCompleted := some now,
                   handlerDuration := osub (some now) c.timeStarted,
                   totalDuration := osub (some now) c.timeOpened }
      else t3
    (step.1, t4)

/-- `openTasks(tasks)` from `engine/processus.js`: a shallow scan of the
sibling list that opens `waiting` tasks (stamping `timeOpened` and recursing
into their children), recurses into the children of `open` tasks that still
have a deeply `waiting` descendant, and stops scanning later siblings as soon
as a visited `open`/`waiting` task is blocking. -/
def openTasksL (now : Int) : List (String × Task) → List (String × Task)
  | [] => []
  | (n, Task.node c cs) :: rest =>
    if c.status == some "open" then
      let cs' :=
        if childHasStatusB cs "waiting" false then
          match cs with
          | some l => some (openTasksL now l)
          | none => none
        else cs
      if isBlocking c then (n, Task.node c cs') :: rest
      else (n, Task.node c cs') :: openTasksL now rest
    else if c.status == some "waiting" then
      let c' := { c with status := some "open", timeOpened := some now }
      let cs' :=
        match cs with
        | some l => some (openTasksL now l)
        | none => none
      if isBlocking c' then (n, Task.node c' cs') :: rest
      else (n, Task.node c' cs') :: openTasksL now rest
    else (n, Task.node c cs) :: openTasksL now rest

/-- A path of task names from the root mapping down to a node; stands in for
the object reference that the JavaScript scheduler keeps in its `openTasks`
dictionary. -/
abbrev TPath := List String

/-- Look up the task at a path (first-match at every level). -/
def lookupPath : List (String × Task) → TPath → Option Task
  | _, [] => none
  | ts, [n] => lookupA ts n
  | ts, n :: rest =>
      match lookupA ts n with
      | some t =>
          match t.children with
          | some cs => lookupPath cs rest
          | none => none
      | none => none

/-- Apply a function to the task at a path, leaving everything else in
place. -/
def updatePath (f : Task → Task) : List (String × Task) → TPath → List (String × Task)
  | ts, [] => ts
  | [], _ => []
  | (n, t) :: rest, [k] =>
      if n = k then (n, f t) :: rest else (n, t) :: updatePath f rest [k]
  | (n, Task.node c cs) :: rest, k :: k2 :: ks =>
      if n = k then
        match cs with
        | some l => (n, Task.node c (some (updatePath f l (k2 :: ks)))) :: rest
        | none => (n, Task.node c cs) :: rest
      else (n, Task.node c cs) :: updatePath f rest (k :: k2 :: ks)

/-- Pre-order collection of `(name, path)` for every deeply reachable task
with the given status (the scan inside `getTasksByStatus`). -/
def collectByStatus (status : String) (pfx : TPath) : List (String × Task) → List (String × TPath)
  | [] => []
  | (n, Task.node c none) :: rest =>
      (if c.status == some status then [(n, pfx ++ [n])] else []) ++
        collectByStatus status pfx rest
  | (n, Task.node c (some cs)) :: rest =>
      (if c.status == some status then [(n, pfx ++ [n])] else []) ++
        (collectByStatus status (pfx ++ [n]) cs ++ collectByStatus status pfx rest)

/-- `getTasksByStatus` accumulates the scanned tasks into a JavaScript object
keyed by the task's local name: a later task with an already-seen name
overwrites the dictionary entry while keeping the first key position. -/
def dedupByName (entries : List (String × TPath)) : List (String × TPath) :=
  entries.foldl (fun acc e => jsObjInsert acc e.1 e.2) []

/-- A workflow instance (`§3`): scalar fields plus the top-level task
mapping and the optional `pre workflow` / `post workflow` tasks. -/
structure Workflow where
  id : Option String := none
  name : Option String := none
  status : Option String := none
  environment : Option (List (String × String)) := none
  tasks : Option (List (String × Task)) := none
  preW : Option Task := none
  postW : Option Task := none
deriving Repr

/-- The file persistence backend (`engine/persistence/file.js`): one current
record per instance id plus archived records.  An archive entry is keyed here
by the base id (the source suffixes the file name with the archive
timestamp); `history` grows strictly append-only. -/
structure FileStore where
  current : List (String × Workflow) := []
  history : List (String × Workflow) := []

/-- `saveInstance` of the file backend: if a current record exists it is
renamed into a timestamp-suffixed history file and the new record is written
as current; on the first save for an id there is nothing to archive. -/
def saveInstanceF (wf : Workflow) (st : FileStore) : FileStore :=
  let i := wf.id.getD "undefined"
  match lookupA st.current i with
  | some old =>
      { current := replaceA st.current i wf, history := st.history ++ [(i, old)] }
  | none => { current := st.current ++ [(i, wf)], history := st.history }

/-- Number of archived records held for an instance id. -/
def historyCount (st : FileStore) (i : String) : Nat :=
  (st.history.filter (fun e => e.1 = i)).length

/-- The document persistence backend (`engine/persistence/mongo.js`):
an `instances` collection and an `instances-history` collection. -/
structure MongoStore where
  instances : List (String × Workflow) := []
  history : List (String × Workflow) := []

/-- `saveInstance` of the mongo backend.  `hasId` models `workflow._id`
being set (the driver stamps it on first insert): without it the record is
inserted, with it the current row is replaced (a missing row is a reported
error and writes nothing); both successful branches then append one
history row whose id is the instance id suffixed with a timestamp. -/
def saveInstanceM (hasId : Bool) (wf : Workflow) (st : MongoStore) : Option MongoStore :=
  let i := wf.id.getD "undefined"
  if hasId then
    match lookupA st.instances i with
    | none => none
    | some _ =>
        some { instances := replaceA st.instances i wf, history := st.history ++ [(i, wf)] }
  else
    some { instances := st.instances ++ [(i, wf)], history := st.history ++ [(i, wf)] }

/-- Phase one of a scheduler pass (the queue-building loop of `realExecute`):
walk the collected `open` entries in dictionary order; a task is runnable iff
it is still `open` and either has no child mapping or all of its deeply
reachable children are `completed`.  Runnable tasks get their conditions
coerced and their status set to `executing` (reference resolution, modelled
separately, is the identity on instances whose serialized fields contain no
`$[` occurrence), and are queued for execution. -/
def phase1 : List (String × TPath) → List (String × Task) →
    List (String × Task) × List (String × TPath)
  | [], ts => (ts, [])
  | (n, p) :: rest, ts =>
      match lookupPath ts p with
      | none => phase1 rest ts
      | some t =>
          let runnable :=
            (t.core.status == some "open" && t.children.isNone) ||
            (t.core.status == some "open" && t.children.isSome &&
              childHasStatusB t.children "completed" true)
          if runnable then
            let ts' := updatePath
              (fun u => u.mapCore fun c => { setConditionValues c with status := some "executing" })
              ts p
            let res := phase1 rest ts'
            (res.1, (n, p) :: res.2)
          else phase1 rest ts

/-- Phase two of a scheduler pass: execute every queued task once, in queue
order, applying the returned task back to its tree node; the batch error is
the first error reported in that order (deterministic model of the
`async.parallel` dispatch). -/
def phase2 (now : Int) (hs : Handlers) (wfId : String) :
    List (String × TPath) → List (String × Task) → List (String × Task) × Option String
  | [], ts => (ts, none)
  | (n, p) :: rest, ts =>
      match lookupPath ts p with
      | none => phase2 now hs wfId rest ts
      | some t =>
          let er := executeTask now hs wfId n t
          let ts' := updatePath (fun _ => er.2) ts p
          let res := phase2 now hs wfId rest ts'
          (res.1, er.1 <|> res.2)

/-- `realExecute` from `engine/processus.js`, with explicit fuel for the
batch recursion (`none` = the bound was reached).  One pass: persist
(save point A); return as-is if any task is `paused`; open the frontier;
queue and run the runnable batch; on a batch error mark the instance
`error`, persist (save point B) and return the error; on an empty batch set
the instance `completed` iff every deeply reachable task is (`childHasStatus`
is false for an empty tree), persist (save point C) and return.  Store
writes are modelled as always succeeding: the source's save-error paths,
which return the save error with the instance status unchanged, do not
arise in this model, so every error this model reports originates from a
dispatched task. -/
def realExec (hs : Handlers) (now : Int) :
    Nat → Workflow → FileStore → Option (Option String × Workflow × FileStore)
  | 0, _, _ => none
  | fuel + 1, wf, st =>
    let st1 := saveInstanceF wf st
    if (deepTasksL (wf.tasks.getD [])).any (fun nt => nt.2.core.status == some "paused") then
      some (none, wf, st1)
    else
      let wf1 :=
        match wf.tasks with
        | none => wf
        | some ts => { wf with tasks := some (openTasksL now ts) }
      let opens := dedupByName (collectByStatus "open" [] (wf1.tasks.getD []))
      let step := phase1 opens (wf1.tasks.getD [])
      let wf2 :=
        match wf1.tasks with
        | none => wf1
        | some _ => { wf1 with tasks := some step.1 }
      if step.2.isEmpty then
        let wf3 :=
          if childHasStatusB wf2.tasks "completed" true then { wf2 with status := some "completed" }
          else wf2
        some (none, wf3, saveInstanceF wf3 st1)
      else
        let run := phase2 now hs (wf2.id.getD "undefined") step.2 (wf2.tasks.getD [])
        let wf3 := { wf2 with tasks := some run.1 }
        match run.2 with
        | none => realExec hs now fuel wf3 st1
        | some e =>
          let wf4 := { wf3 with status := some "error" }
          some (some e, wf4, saveInstanceF wf4 st1)

/-- `setTaskStatusWaiting` from `engine/processus.js`: force the instance
status to `open`, replace an absent task mapping with an empty one, and give
every deeply reachable task lacking a status the status `waiting`. -/
def setWaitingL : List (String × Task) → List (String × Task)
  | [] => []
  | (n, Task.node c none) :: rest =>
      (n, Task.node (if c.status.isNone then { c with status := some "waiting" } else c) none) ::
        setWaitingL rest
  | (n, Task.node c (some l)) :: rest =>
      (n, Task.node (if c.status.isNone then { c with status := some "waiting" } else c)
        (some (setWaitingL l))) :: setWaitingL rest

def setTaskStatusWaiting (wf : Workflow) : Workflow :=
  let wf1 := { wf with status := some "open" }
  match wf1.tasks with
  | none => { wf1 with tasks := some [] }
  | some ts => { wf1 with tasks := some (setWaitingL ts) }

/-- `validateWorkflow` from `engine/processus.js`: deep-clone (implicit in
the pure model), initialise statuses, and assign a fresh id when the `id`
field is falsy. -/
def validateWorkflow (newId : String) (wf : Workflow) : Workflow :=
  let wf1 := setTaskStatusWaiting wf
  if strTruthy wf1.id then wf1 else { wf1 with id := some newId }

/-- `addEnvVars` from `engine/processus.js`: overwrite the `environment`
field with a snapshot of the process environment.  In the source this runs
on the caller's object, before the deep clone taken in `validateWorkflow`. -/
def addEnvVars (env : List (String × String)) (wf : Workflow) : Workflow :=
  { wf with environment := some env }

/-- `executePrePost` from `engine/processus.js`: when the hook task is
present, coerce its conditions, mark it `executing`, stamp `timeOpened` and
run it through `executeTask`; any error it reports is discarded (the source
always continues with `callback(null, workflow)`). -/
def runPrePost (now : Int) (hs : Handlers) (wfId tname : String) : Option Task → Option Task
  | none => none
  | some t =>
      let t1 := t.mapCore fun c =>
        { setConditionValues c with status := some "executing", timeOpened := some now }
      some (executeTask now hs wfId tname t1).2

/-- Outcome of a driver-level execution: the callback's error argument, the
final instance and the final store. -/
structure ExecOutcome where
  err : Option String
  wf : Workflow
  st : FileStore

/-- `execute` from `engine/processus.js` (the execution driver, `§4.F`):
`addEnvVars` mutates the caller's object, `validateWorkflow` clones and
normalises it, the `pre workflow` hook runs, then the scheduler, then the
`post workflow` hook.  The second component of the result is the caller's
object as the caller observes it after the call — exactly the inbound
instance with `environment` overwritten, since every later mutation happens
on the clone. -/
def executeDriver (hs : Handlers) (now : Int) (env : List (String × String)) (newId : String)
    (fuel : Nat) (wf0 : Workflow) (st : FileStore) : Option ExecOutcome × Workflow :=
  let callerAfter := addEnvVars env wf0
  let wf1 := validateWorkflow newId callerAfter
  let wfId := wf1.id.getD "undefined"
  let wf2 := { wf1 with preW := runPrePost now hs wfId "pre workflow" wf1.preW }
  let outcome :=
    match realExec hs now fuel wf2 st with
    | none => none
    | some (some e, wf3, st3) => some ⟨some e, wf3, st3⟩
    | some (none, wf3, st3) =>
        some ⟨none, { wf3 with postW := runPrePost now hs wfId "post workflow" wf3.postW }, st3⟩
  (outcome, callerAfter)

/-- `mergeTask` from `engine/processus.js`: replace `parameters`, `status`,
`errorIf`, `skipIf` and the child mapping with the injected task's values,
stamp `timeCompleted` and recompute `totalDuration` from the original
`timeOpened`. -/
def mergeTask (now : Int) (orig nt : Task) : Task :=
  match orig with
  | .node c _ =>
      .node { c with parameters := nt.core.parameters, status := nt.core.status,
                     errorIf := nt.core.errorIf, skipIf := nt.core.skipIf,
                     timeCompleted := some now,
                     totalDuration := osub (some now) c.timeOpened }
        nt.children

/-- One injected task applied by `mergeTasks`: deep pre-order scan for the
first task with the given name; merge it and stop. -/
def mergeOne (now : Int) (tname : String) (nt : Task) :
    List (String × Task) → List (String × Task) × Bool
  | [] => ([], true)
  | (n, Task.node c cs) :: rest =>
      if n = tname then ((n, mergeTask now (Task.node c cs) nt) :: rest, false)
      else
        match cs with
        | some l =>
            let inner := mergeOne now tname nt l
            if inner.2 then
              let outer := mergeOne now tname nt rest
              ((n, Task.node c (some inner.1)) :: outer.1, outer.2)
            else ((n, Task.node c (some inner.1)) :: rest, false)
        | none =>
            let outer := mergeOne now tname nt rest
            ((n, Task.node c none) :: outer.1, outer.2)

/-- `mergeTasks` from `engine/processus.js`: apply every injected task in
key order; names not found are silently ignored (a workflow without a task
mapping is left untouched). -/
def mergeTasksW (now : Int) (wf : Workflow) (tasks : List (String × Task)) : Workflow :=
  tasks.foldl
    (fun w e =>
      match w.tasks with
      | none => w
      | some l => { w with tasks := some (mergeOne now e.1 e.2 l).1 })
    wf

/-- `updateTasks` from `engine/processus.js`: load the current record; a
non-`completed` instance gets the injected tasks merged and is re-executed;
an already `completed` instance fails with the dedicated error and nothing
is merged, executed or saved. -/
def updateTasksM (hs : Handlers) (now : Int) (env : List (String × String)) (newId : String)
    (fuel : Nat) (st : FileStore) (wid : String) (tasks : List (String × Task)) :
    Option String × Option Workflow × FileStore :=
  match lookupA st.current wid with
  | none => (some ("Unable to find workflow " ++ wid), none, st)
  | some wf =>
      if wf.status ≠ some "completed" then
        let merged := mergeTasksW now wf tasks
        match (executeDriver hs now env newId fuel merged st).1 with
        | none => (none, none, st)
        | some o => (o.err, some o.wf, o.st)
      else
        (some ("Update failed, workflow [" ++ wid ++ "] has already completed!"), none, st)

/-- The names exported by `engine/processus.js`: its named exports, which are
also exactly the keys of its default export object.  The internal `execute`
function is module-private and appears in neither. -/
def processusModuleExports : List String :=
  ["runWorkflow", "updateTasks", "scanAllTasks", "getData",
   "setConditionValues", "isBlocking", "getBoolean"]

/-- Observable outcome of a public API call: either a synchronously thrown
exception or an invocation of the caller's callback. -/
inductive ApiOutcome where
  | threw (msg : String)
  | calledBack (err : Option String) (wf : Option Workflow)

/-- `execute` from `engine/api.js`: reject a missing workflow through the
callback, then call `p.execute(workflow, callback)` on the namespace object
`p` imported from `engine/processus.js`.  Accessing a name absent from the
module's exports yields `undefined`, and calling it throws a `TypeError`
before the engine is ever entered. -/
def apiExecute (hs : Handlers) (now : Int) (env : List (String × String)) (newId : String)
    (fuel : Nat) (st : FileStore) (wf? : Option Workflow) : ApiOutcome :=
  match wf? with
  | none => .calledBack (some "Workflow object is required") none
  | some wf =>
      if processusModuleExports.contains "execute" then
        match (executeDriver hs now env newId fuel wf st).1 with
        | none => .calledBack none none
        | some o => .calledBack o.err (some o.wf)
      else .threw "TypeError: p.execute is not a function"

/-! ## Reference resolution (`setTaskDataValues`, `getData`)

`setTaskDataValues` serializes each task property with
`JSON.stringify(value, null, 2)`, textually replaces every `$[path]`
occurrence, and re-parses.  The model below follows that pipeline character
by character over `List Char`, including the exact chain of
`String.prototype.replace` calls used to escape a string-valued resolved
reference — in particular `.replace(/\b/g, "\\b")`, whose pattern is the
regular-expression word boundary. -/

/-- JSON values (numbers restricted to integers, which covers every value
the engine itself writes). -/
inductive JVal where
  | null
  | jb (x : Bool)
  | jn (x : Int)
  | js (x : String)
  | ja (xs : List JVal)
  | jo (fields : List (String × JVal))
deriving Repr

/-- JSON.stringify's escaping of one character inside a string literal. -/
def jsonEscChar (c : Char) : List Char :=
  if c = '"' then ['\\', '"']
  else if c = '\\' then ['\\', '\\']
  else if c.toNat = 8 then ['\\', 'b']
  else if c.toNat = 9 then ['\\', 't']
  else if c.toNat = 10 then ['\\', 'n']
  else if c.toNat = 12 then ['\\', 'f']
  else if c.toNat = 13 then ['\\', 'r']
  else if c.toNat < 32 then
    let hex := fun (n : Nat) => (if n < 10 then Char.ofNat (48 + n) else Char.ofNat (87 + n))
    ['\\', 'u', '0', '0', hex (c.toNat / 16), hex (c.toNat % 16)]
  else [c]

/-- Decimal digits of a natural number. -/
def natDigits (fuel n : Nat) : List Char :=
  match fuel with
  | 0 => []
  | fuel + 1 =>
      if n < 10 then [Char.ofNat (48 + n)]
      else natDigits fuel (n / 10) ++ [Char.ofNat (48 + n % 10)]

/-- Decimal rendering of an integer. -/
def intChars (i : Int) : List Char :=
  if i < 0 then '-' :: natDigits (i.natAbs + 1) i.natAbs else natDigits (i.natAbs + 1) i.natAbs

/-- Two-space indentation at a depth, as produced by
`JSON.stringify(v, null, 2)`. -/
def ind2 (d : Nat) : List Char := List.replicate (2 * d) ' '

mutual

/-- `JSON.stringify(v, null, 2)` over the `JVal` model (with
`stringifyItems` and `stringifyMembers` rendering the indented,
comma-newline separated bodies of arrays and objects). -/
def stringifyJ (d : Nat) : JVal → List Char
  | .null => ['n', 'u', 'l', 'l']
  | .jb true => ['t', 'r', 'u', 'e']
  | .jb false => ['f', 'a', 'l', 's', 'e']
  | .jn i => intChars i
  | .js s => '"' :: (s.data.flatMap jsonEscChar) ++ ['"']
  | .ja [] => ['[', ']']
  | .ja (x :: xs) =>
      '[' :: '\n' :: stringifyItems (d + 1) (x :: xs) ++ '\n' :: ind2 d ++ [']']
  | .jo [] => ['{', '}']
  | .jo (f :: fs) =>
      '{' :: '\n' :: stringifyMembers (d + 1) (f :: fs) ++ '\n' :: ind2 d ++ ['}']

def stringifyItems (d : Nat) : List JVal → List Char
  | [] => []
  | [x] => ind2 d ++ stringifyJ d x
  | x :: y :: rest => ind2 d ++ stringifyJ d x ++ ',' :: '\n' :: stringifyItems d (y :: rest)

def stringifyMembers (d : Nat) : List (String × JVal) → List Char
  | [] => []
  | [(k, v)] => ind2 d ++ '"' :: (k.data.flatMap jsonEscChar) ++ '"' :: ':' :: ' ' :: stringifyJ d v
  | (k, v) :: f :: fs =>
      ind2 d ++ '"' :: (k.data.flatMap jsonEscChar) ++ '"' :: ':' :: ' ' :: stringifyJ d v ++
        ',' :: '\n' :: stringifyMembers d (f :: fs)

end

mutual

/-- `String(dataValue)` on a non-string value (used when splicing a
non-string resolved reference into the middle of a larger string); arrays
render as their comma-joined elements, objects as `[object Object]`. -/
def jsToString : JVal → List Char
  | .null => ['n', 'u', 'l', 'l']
  | .jb true => ['t', 'r', 'u', 'e']
  | .jb false => ['f', 'a', 'l', 's', 'e']
  | .jn i => intChars i
  | .js s => s.data
  | .ja xs => jsToStringArr xs
  | .jo _ => "[object Object]".data

def jsToStringArr : List JVal → List Char
  | [] => []
  | [x] => jsToString x
  | x :: y :: rest => jsToString x ++ ',' :: jsToStringArr (y :: rest)

end

/-- The word characters of JavaScript regular expressions
(`\w = [A-Za-z0-9_]`), which determine `\b` word boundaries. -/
def isWordChar (c : Char) : Bool :=
  (97 ≤ c.toNat && c.toNat ≤ 122) || (65 ≤ c.toNat && c.toNat ≤ 90) ||
  (48 ≤ c.toNat && c.toNat ≤ 57) || c = '_'

/-- `s.replace(/\b/g, "\\b")`: insert the two characters `\` `b` at every
word boundary of the original string (a boundary lies wherever a word
character meets a non-word character or an end of the string). -/
def wbInsert : Bool → List Char → List Char
  | prevW, [] => if prevW then ['\\', 'b'] else []
  | prevW, c :: rest =>
      let cw := isWordChar c
      (if prevW ≠ cw then ['\\', 'b'] else []) ++ c :: wbInsert cw rest

/-- `s.replace(/x/g, rep)` for a single-character pattern. -/
def replaceAllCh (pat : Char) (rep : List Char) : List Char → List Char
  | [] => []
  | c :: rest => (if c = pat then rep else [c]) ++ replaceAllCh pat rep rest

/-- The escape chain applied to a string-valued resolved reference in
`setTaskDataValues` (`engine/processus.js` lines 407–417), in source order:
backslash, slash, the `/\b/g` word-boundary replace, form feed, newline,
carriage return, tab, double quote, single quote. -/
def escapeForSplice (s : List Char) : List Char :=
  let s1 := replaceAllCh '\\' ['\\', '\\'] s
  let s2 := replaceAllCh '/' ['\\', '/'] s1
  let s3 := wbInsert false s2
  let s4 := replaceAllCh (Char.ofNat 12) ['\\', 'f'] s3
  let s5 := replaceAllCh (Char.ofNat 10) ['\\', 'n'] s4
  let s6 := replaceAllCh (Char.ofNat 13) ['\\', 'r'] s5
  let s7 := replaceAllCh (Char.ofNat 9) ['\\', 't'] s6
  let s8 := replaceAllCh '"' ['\\', '"'] s7
  replaceAllCh '\'' ['\\', '\''] s8

/-- `s.replace(pattern, rep)` with a plain-string pattern: replace the first
occurrence only (the replacement strings produced by the engine contain no
`$` substitution sequences). -/
def replaceFirstL (pat rep : List Char) : List Char → List Char
  | [] => []
  | c :: rest =>
      if pat.isPrefixOf (c :: rest) then rep ++ (c :: rest).drop pat.length
      else c :: replaceFirstL pat rep rest

/-- All matches of `/\$\[([^\]]+)\]/g`: each match is the full `$[...]`
text, found left to right, non-overlapping, requiring at least one
non-`]` character inside. -/
def findRefsGo : Nat → List Char → List (List Char)
  | 0, _ => []
  | _, [] => []
  | fuel + 1, '$' :: rest =>
      (match rest with
       | '[' :: rest2 =>
           let body := rest2.takeWhile (fun c => c ≠ ']')
           if body.isEmpty then findRefsGo fuel rest
           else
             match rest2.drop body.length with
             | ']' :: tail => ('$' :: '[' :: body ++ [']']) :: findRefsGo fuel tail
             | _ => findRefsGo fuel rest
       | _ => findRefsGo fuel rest)
  | fuel + 1, _ :: rest => findRefsGo fuel rest

def findRefs (s : List Char) : List (List Char) := findRefsGo (s.length + 1) s

/-- Is the string all decimal digits (and nonempty)? -/
def allDigits (s : List Char) : Bool :=
  !s.isEmpty && s.all (fun c => 48 ≤ c.toNat && c.toNat ≤ 57)

/-- Numeric value of a digit string. -/
def digitsToNat (s : List Char) : Nat :=
  s.foldl (fun acc c => acc * 10 + (c.toNat - 48)) 0

/-- The `^([^\[]+)\[(\d+)\]$` pattern of `getData`: split a path segment of
the form `key[index]`. -/
def parseIdxSeg (s : List Char) : Option (String × Nat) :=
  let key := s.takeWhile (fun c => c ≠ '[')
  if key.isEmpty then none
  else
    match s.drop key.length with
    | '[' :: rest =>
        let digits := rest.takeWhile (fun c => c ≠ ']')
        if allDigits digits then
          match rest.drop digits.length with
          | [']'] => some (String.mk key, digitsToNat digits)
          | _ => none
        else none
    | _ => none

/-- One JavaScript property access `current[p]` as `getData` performs it:
object lookup, array element for an all-digits key, `undefined`
otherwise. -/
def jGet (v : JVal) (k : String) : Option JVal :=
  match v with
  | .jo fs => lookupA fs k
  | .ja xs => if allDigits k.data then xs.get? (digitsToNat k.data) else none
  | _ => none

/-- The segment loop of `getData` from `engine/processus.js`: walk the
dot-separated path from the workflow root, breaking (and returning the
value reached) once `current` is `null` or `undefined`; a `key[index]`
segment first reads `key` and then indexes only when the value is an
array.  `none` is JavaScript `undefined`. -/
def getDataGo : Option JVal → List String → Option JVal
  | cur, [] => cur
  | none, _ :: _ => none
  | some .null, _ :: _ => some .null
  | some v, p :: rest =>
      match parseIdxSeg p.data with
      | some ki =>
          let stepped :=
            match jGet v ki.1 with
            | some (.ja xs) => xs.get? ki.2
            | other => other
          getDataGo stepped rest
      | none => getDataGo (jGet v p) rest

/-- `path.split(".")`: cut the character list at every dot (an empty path
yields one empty segment, exactly as in JavaScript). -/
def splitDotsGo : List Char → List Char → List String
  | [], acc => [String.mk acc.reverse]
  | '.' :: rest, acc => String.mk acc.reverse :: splitDotsGo rest []
  | c :: rest, acc => splitDotsGo rest (c :: acc)

/-- `getData(workflow, path)` over the `JVal` model of the instance. -/
def getData (workflow : JVal) (path : String) : Option JVal :=
  getDataGo (some workflow) (splitDotsGo path.data [])

/-- Hexadecimal digit value, for `\uXXXX` escapes. -/
def hexVal (c : Char) : Option Nat :=
  if 48 ≤ c.toNat && c.toNat ≤ 57 then some (c.toNat - 48)
  else if 97 ≤ c.toNat && c.toNat ≤ 102 then some (c.toNat - 87)
  else if 65 ≤ c.toNat && c.toNat ≤ 70 then some (c.toNat - 55)
  else none

/-- Parse the body of a JSON string literal (after the opening quote),
returning the decoded characters and the remaining input.  Exactly the
escapes JSON.parse accepts are accepted; anything else (for instance `\'`)
fails. -/
def parseStr : Nat → List Char → Option (List Char × List Char)
  | 0, _ => none
  | _, [] => none
  | fuel + 1, c :: rest =>
      if c = '"' then some ([], rest)
      else if c = '\\' then
        match rest with
        | '"' :: tail => (parseStr fuel tail).map (fun st => ('"' :: st.1, st.2))
        | '\\' :: tail => (parseStr fuel tail).map (fun st => ('\\' :: st.1, st.2))
        | '/' :: tail => (parseStr fuel tail).map (fun st => ('/' :: st.1, st.2))
        | 'b' :: tail => (parseStr fuel tail).map (fun st => (Char.ofNat 8 :: st.1, st.2))
        | 'f' :: tail => (parseStr fuel tail).map (fun st => (Char.ofNat 12 :: st.1, st.2))
        | 'n' :: tail => (parseStr fuel tail).map (fun st => (Char.ofNat 10 :: st.1, st.2))
        | 'r' :: tail => (parseStr fuel tail).map (fun st => (Char.ofNat 13 :: st.1, st.2))
        | 't' :: tail => (parseStr fuel tail).map (fun st => (Char.ofNat 9 :: st.1, st.2))
        | 'u' :: h1 :: h2 :: h3 :: h4 :: tail =>
            (match hexVal h1, hexVal h2, hexVal h3, hexVal h4 with
             | some a, some b, some c2, some d2 =>
                 (parseStr fuel tail).map
                   (fun st => (Char.ofNat (((a * 16 + b) * 16 + c2) * 16 + d2) :: st.1, st.2))
             | _, _, _, _ => none)
        | _ => none
      else if c.toNat < 32 then none
      else (parseStr fuel rest).map (fun st => (c :: st.1, st.2))

/-- JSON whitespace. -/
def skipWs (s : List Char) : List Char :=
  s.dropWhile (fun c => c = ' ' || c.toNat = 9 || c.toNat = 10 || c.toNat = 13)

mutual

/-- Recursive-descent JSON parser (fuel-indexed), agreeing with
`JSON.parse` on the engine's serialized instances: values are `null`,
booleans, integer numbers, strings, arrays and objects. -/
def parseVal : Nat → List Char → Option (JVal × List Char)
  | 0, _ => none
  | fuel + 1, s0 =>
      match skipWs s0 with
      | [] => none
      | 'n' :: 'u' :: 'l' :: 'l' :: rest => some (.null, rest)
      | 't' :: 'r' :: 'u' :: 'e' :: rest => some (.jb true, rest)
      | 'f' :: 'a' :: 'l' :: 's' :: 'e' :: rest => some (.jb false, rest)
      | '"' :: rest =>
          (match parseStr (rest.length + 1) rest with
           | some (cs, tail) => some (.js (String.mk cs), tail)
           | none => none)
      | '-' :: rest =>
          let digits := rest.takeWhile (fun c => 48 ≤ c.toNat && c.toNat ≤ 57)
          if digits.isEmpty then none
          else some (.jn (-(digitsToNat digits : Int)), rest.drop digits.length)
      | '[' :: rest =>
          (match skipWs rest with
           | ']' :: tail => some (.ja [], tail)
           | _ => parseArr fuel rest [])
      | '{' :: rest =>
          (match skipWs rest with
           | '}' :: tail => some (.jo [], tail)
           | _ => parseObj fuel rest [])
      | c :: rest =>
          if 48 ≤ c.toNat && c.toNat ≤ 57 then
            let digits := (c :: rest).takeWhile (fun d => 48 ≤ d.toNat && d.toNat ≤ 57)
            some (.jn (digitsToNat digits : Int), (c :: rest).drop digits.length)
          else none

/-- Elements of a JSON array after `[`. -/
def parseArr : Nat → List Char → List JVal → Option (JVal × List Char)
  | 0, _, _ => none
  | fuel + 1, s, acc =>
      match parseVal fuel s with
      | none => none
      | some (v, rest) =>
          match skipWs rest with
          | ',' :: tail => parseArr fuel tail (acc ++ [v])
          | ']' :: tail => some (.ja (acc ++ [v]), tail)
          | _ => none

/-- Members of a JSON object after `{`. -/
def parseObj : Nat → List Char → List (String × JVal) → Option (JVal × List Char)
  | 0, _, _ => none
  | fuel + 1, s, acc =>
      match skipWs s with
      | '"' :: rest =>
          (match parseStr (rest.length + 1) rest with
           | none => none
           | some (k, afterKey) =>
               match skipWs afterKey with
               | ':' :: afterColon =>
                   (match parseVal fuel afterColon with
                    | none => none
                    | some (v, rest2) =>
                        match skipWs rest2 with
                        | ',' :: tail => parseObj fuel tail (acc ++ [(String.mk k, v)])
                        | '}' :: tail => some (.jo (acc ++ [(String.mk k, v)]), tail)
                        | _ => none)
               | _ => none)
      | _ => none

end

/-- `JSON.parse` of a complete text. -/
def jsonParse (s : List Char) : Option JVal :=
  match parseVal (s.length + 1) s with
  | some (v, rest) => if (skipWs rest).isEmpty then some v else none
  | none => none

/-- The per-reference replacement step inside `setTaskDataValues`
(`engine/processus.js` lines 397–428): strip the `$[` `]` wrapper, resolve
through `getData` (an unresolved reference becomes `null`), then either
escape-and-splice a string value over the first occurrence of the raw
reference, or substitute the JSON text for the quoted occurrence
`"$[...]"` — falling back to `String(value)` over the bare occurrence when
the quoted form is not present. -/
def spliceRef (workflow : JVal) (vs : List Char) (rawRef : List Char) : List Char :=
  let ref := (rawRef.drop 2).dropLast
  let dataValue := (getData workflow (String.mk ref)).getD .null
  match dataValue with
  | .js s => replaceFirstL rawRef (escapeForSplice s.data) vs
  | other =>
      let jsonVal := stringifyJ 0 other
      let quoted := '"' :: rawRef ++ ['"']
      let before := replaceFirstL quoted jsonVal vs
      if vs = before then replaceFirstL rawRef (jsToString other) vs else before

/-- One property of the task as `setTaskDataValues` processes it: serialize,
collect the `$[...]` occurrences (skipping the property when there are
none), splice each in turn, and re-parse — keeping the original value when
the spliced text is no longer valid JSON. -/
def resolveProperty (workflow : JVal) (value : JVal) : JVal :=
  let valueStr0 := stringifyJ 0 value
  match findRefs valueStr0 with
  | [] => value
  | refs =>
      let spliced := refs.foldl (spliceRef workflow) valueStr0
      match jsonParse spliced with
      | some v => v
      | none => value

/-- `setTaskDataValues(workflow, task)` from `engine/processus.js`: every
own property of the task object is run through the resolution pipeline. -/
def setTaskDataValuesJ (workflow : JVal) (task : List (String × JVal)) :
    List (String × JVal) :=
  task.map (fun kv => (kv.1, resolveProperty workflow kv.2))

/-! ## Concrete scenarios used by the theorems -/

/-- A handler pool with no loadable modules. -/
def noHandlers : Handlers := fun _ => none

/-- A handler pool where every module succeeds and returns the task
unchanged. -/
def okHandlers : Handlers := fun _ => some (fun _ _ t => (none, t))

/-- A leaf task that has already completed. -/
def doneLeaf : Task := .node { status := some "completed" } none

/-- A leaf task still waiting. -/
def waitLeaf : Task := .node { status := some "waiting" } none

/-- The instance of scenario 5 (workflow `"E"`) as seen by `getData`:
`environment.HOME` is `/tmp`. -/
def c2Workflow : JVal :=
  .jo [("name", .js "E"),
       ("environment", .jo [("HOME", .js "/tmp")]),
       ("tasks", .jo [("t1", .jo [("handler", .js "log"),
                                  ("parameters", .jo [("log", .js "val=$[environment.HOME]")])])])]

/-- Task `t1` of scenario 5, as the property list handed to
`setTaskDataValues`. -/
def c2Task : List (String × JVal) :=
  [("handler", .js "log"),
   ("parameters", .jo [("log", .js "val=$[environment.HOME]")])]

/-- The value of `t1.parameters.log` after reference resolution. -/
def c2Log : Option String :=
  match lookupA (setTaskDataValuesJ c2Workflow c2Task) "parameters" with
  | some (.jo fs) =>
      match lookupA fs "log" with
      | some (.js s) => some s
      | _ => none
  | _ => none

/-- An instance whose single task has already completed. -/
def c4Wf : Workflow := { id := some "w1", tasks := some [("t1", doneLeaf)] }

/-- A store already holding the current record of `c4Wf`. -/
def c4Store : FileStore := { current := [("w1", c4Wf)], history := [] }

/-- Executing the fully completed instance. -/
def c4Run : Option ExecOutcome × Workflow :=
  executeDriver noHandlers 100 [("HOME", "/tmp")] "fresh" 5 c4Wf c4Store

/-- An inbound instance with no `environment` field. -/
def c5Wf : Workflow := { id := some "w5", tasks := some [("t1", waitLeaf)] }

/-- Executing `c5Wf`; the second component is the caller's object after the
call. -/
def c5Run : Option ExecOutcome × Workflow :=
  executeDriver noHandlers 0 [("HOME", "/tmp")] "n5" 3 c5Wf ⟨[], []⟩

/-- An instance whose top-level task mapping is empty. -/
def c6Wf : Workflow := { id := some "w6", tasks := some [] }

/-- Executing the empty instance. -/
def c6Run : Option ExecOutcome × Workflow :=
  executeDriver noHandlers 0 [] "n6" 2 c6Wf ⟨[], []⟩

/-- An empty-mapping instance already normalised (status `open`), used to
instantiate the scheduler-level theorem for C6. -/
def c6wWf : Workflow := { id := some "e", status := some "open", tasks := some [] }

/-- A workflow carrying only an id, used for store-level scenarios. -/
def c3Wf : Workflow := { id := some "w" }

/-- A completed blocking task (terminal before the pass begins). -/
def c10DoneBlocking : Task :=
  .node { status := some "completed", blocking := some (CVal.b true) } none

/-- A waiting blocking task with one waiting child. -/
def c10WaitBlocking : Task :=
  .node { status := some "waiting", blocking := some (CVal.b true) } (some [("c1", waitLeaf)])

/-- The sibling list of the C10 counterexample: a completed blocking task
followed by a waiting sibling. -/
def c10Tasks : List (String × Task) := [("a", c10DoneBlocking), ("b", waitLeaf)]

/-- A task already marked `executing` whose `skipIf` is `true`, as prepared
by the scheduler just before dispatch. -/
def c8SkipTask : Task :=
  .node { status := some "executing", handler := some "log", skipIf := some (CVal.b true),
          timeOpened := some 1 } none

/-- A task already marked `executing` with no handler and no children. -/
def c8NoHandlerTask : Task :=
  .node { status := some "executing", timeOpened := some 1 } none

/-- A handler that reports an error without touching the task. -/
def failingHandler : HandlerFn := fun _ _ t => (some "boom", t)

/-- A handler pool exposing only `failingHandler` under the name `test`. -/
def failHandlers : Handlers := fun h => if h = "test" then some failingHandler else none

/-- A task with `ignoreError` set, prepared for dispatch. -/
def c9Task : Task :=
  .node { status := some "executing", handler := some "test",
          ignoreError := some (CVal.b true), timeOpened := some 1 } none

/-- `c9Task` as `executeTask` hands it to its handler: `timeStarted`
stamped and `handlerExecuted` set. -/
def c9Ready : Task :=
  c9Task.mapCore fun c => { c with timeStarted := some 100, handlerExecuted := some true }

/-- A store holding one already completed instance, for the update
scenario. -/
def c7DoneWf : Workflow := { id := some "u1", status := some "completed", tasks := some [("t1", doneLeaf)] }

def c7Store : FileStore := { current := [("u1", c7DoneWf)], history := [] }

/-! ## Helper lemmas -/

theorem lookupA_append_self {α : Type} (xs : List (String × α)) (i : String) (v : α)
    (h : lookupA xs i = none) : lookupA (xs ++ [(i, v)]) i = some v := by
  induction xs with
  | nil => simp [lookupA]
  | cons e rest ih =>
      obtain ⟨n, w⟩ := e
      by_cases hn : n = i
      · simp [lookupA, hn] at h
      · simp [lookupA, hn] at h ⊢
        exact ih h

theorem lookupA_replaceA {α : Type} (xs : List (String × α)) (i : String) (v : α)
    (h : (lookupA xs i).isSome) : lookupA (replaceA xs i v) i = some v := by
  induction xs with
  | nil => simp [lookupA] at h
  | cons e rest ih =>
      obtain ⟨n, w⟩ := e
      by_cases hn : n = i
      · simp [lookupA, replaceA, hn]
      · simp [lookupA, replaceA, hn] at h ⊢
        exact ih h

theorem saveF_current (wf : Workflow) (st : FileStore) (i : String) (hid : wf.id = some i) :
    lookupA (saveInstanceF wf st).current i = some wf := by
  unfold saveInstanceF
  rw [hid]
  simp only [Option.getD_some]
  cases h : lookupA st.current i with
  | none => exact lookupA_append_self st.current i wf h
  | some r => exact lookupA_replaceA st.current i wf (by simp [h])

theorem saveF_hist_inc (wf : Workflow) (st : FileStore) (i : String) (r : Workflow)
    (hid : wf.id = some i) (h : lookupA st.current i = some r) :
    historyCount (saveInstanceF wf st) i = historyCount st i + 1 := by
  unfold saveInstanceF historyCount
  rw [hid]
  simp only [Option.getD_some]
  rw [h]
  simp [List.filter_append]

theorem saveF_hist_none (wf : Workflow) (st : FileStore) (i : String)
    (hid : wf.id = some i) (h : lookupA st.current i = none) :
    historyCount (saveInstanceF wf st) i = historyCount st i := by
  unfold saveInstanceF historyCount
  rw [hid]
  simp only [Option.getD_some]
  rw [h]

theorem fold_saves (wfs : List Workflow) (st : FileStore) (i : String)
    (hc : (lookupA st.current i).isSome)
    (hall : ∀ wf ∈ wfs, wf.id = some i) :
    historyCount (wfs.foldl (fun s wf => saveInstanceF wf s) st) i =
      historyCount st i + wfs.length := by
  induction wfs generalizing st with
  | nil => simp
  | cons w rest ih =>
      obtain ⟨r, hr⟩ := Option.isSome_iff_exists.mp hc
      have hid : w.id = some i := hall w (by simp)
      have step := saveF_hist_inc w st i r hid hr
      have hc' : (lookupA (saveInstanceF w st).current i).isSome := by
        simp [saveF_current w st i hid]
      have := ih (saveInstanceF w st) hc' (fun wf hm => hall wf (by simp [hm]))
      simp only [List.foldl_cons, List.length_cons]
      rw [this, step]
      omega

theorem deep_self_mem (n : String) (c : TaskCore) (cs : Option (List (String × Task)))
    (rest : List (String × Task)) :
    (n, Task.node c cs) ∈ deepTasksL ((n, Task.node c cs) :: rest) := by
  cases cs <;> simp [deepTasksL]

theorem deep_sub_children (l rest : List (String × Task)) (n : String) (c : TaskCore)
    (nt : String × Task) (h : nt ∈ deepTasksL l) :
    nt ∈ deepTasksL ((n, Task.node c (some l)) :: rest) := by
  simp [deepTasksL]
  tauto

theorem deep_sub_rest (rest : List (String × Task)) (n : String) (c : TaskCore)
    (cs : Option (List (String × Task))) (nt : String × Task) (h : nt ∈ deepTasksL rest) :
    nt ∈ deepTasksL ((n, Task.node c cs) :: rest) := by
  cases cs <;> simp [deepTasksL] <;> tauto

theorem setWaitingL_id (ts : List (String × Task))
    (h : ∀ nt ∈ deepTasksL ts, (nt.2.core.status).isSome) : setWaitingL ts = ts := by
  induction ts using setWaitingL.induct with
  | case1 => simp [setWaitingL]
  | case2 n c rest ih =>
      have hs := h (n, Task.node c none) (deep_self_mem n c none rest)
      simp only [Task.core] at hs
      rw [setWaitingL]
      rw [ih (fun nt hm => h nt (deep_sub_rest rest n c none nt hm))]
      simp [Option.isNone_iff_eq_none]
      intro hcon
      rw [hcon] at hs
      cases hs
  | case3 n c l rest ih1 ih2 =>
      have hs := h (n, Task.node c (some l)) (deep_self_mem n c (some l) rest)
      simp only [Task.core] at hs
      rw [setWaitingL]
      rw [ih1 (fun nt hm => h nt (deep_sub_children l rest n c nt hm))]
      rw [ih2 (fun nt hm => h nt (deep_sub_rest rest n c (some l) nt hm))]
      simp [Option.isNone_iff_eq_none]
      intro hcon
      rw [hcon] at hs
      cases hs

theorem openTasksL_id (now : Int) (ts : List (String × Task))
    (h : ∀ nt ∈ deepTasksL ts, nt.2.core.status = some "completed") :
    openTasksL now ts = ts := by
  induction ts using openTasksL.induct with
  | now => exact now
  | case1 => simp [openTasksL]
  | case2 n c cs rest hopen hblock ihc =>
      have hs := h (n, Task.node c cs) (deep_self_mem n c cs rest)
      simp only [Task.core] at hs
      rw [hs] at hopen
      simp at hopen
  | case3 n c cs rest hopen hblock ihc ihr =>
      have hs := h (n, Task.node c cs) (deep_self_mem n c cs rest)
      simp only [Task.core] at hs
      rw [hs] at hopen
      simp at hopen
  | case4 n c cs rest hnopen hwait hblock ihc =>
      have hs := h (n, Task.node c cs) (deep_self_mem n c cs rest)
      simp only [Task.core] at hs
      rw [hs] at hwait
      simp at hwait
  | case5 n c cs rest hnopen hwait hblock ihc ihr =>
      have hs := h (n, Task.node c cs) (deep_self_mem n c cs rest)
      simp only [Task.core] at hs
      rw [hs] at hwait
      simp at hwait
  | case6 n c cs rest hnopen hnwait ihr =>
      simp only [Bool.not_eq_true] at hnopen hnwait
      rw [openTasksL.eq_def]
      simp only [hnopen, hnwait, Bool.false_eq_true, if_false]
      rw [ihr (fun nt hm => h nt (deep_sub_rest rest n c cs nt hm))]

theorem collectByStatus_nil (status : String) (pfx : TPath) (ts : List (String × Task))
    (h : ∀ nt ∈ deepTasksL ts, nt.2.core.status = some "completed")
    (hst : status ≠ "completed") :
    collectByStatus status pfx ts = [] := by
  induction pfx, ts using collectByStatus.induct with
  | status => exact status
  | case1 pfx2 => simp [collectByStatus]
  | case2 pfx2 n c rest ih =>
      have hs := h (n, Task.node c none) (deep_self_mem n c none rest)
      simp only [Task.core] at hs
      rw [collectByStatus.eq_def]
      simp only [hs]
      rw [ih (fun nt hm => h nt (deep_sub_rest rest n c none nt hm))]
      simp
      intro hcon
      exact hst hcon.symm
  | case3 pfx2 n c cs rest ih1 ih2 =>
      have hs := h (n, Task.node c (some cs)) (deep_self_mem n c (some cs) rest)
      simp only [Task.core] at hs
      rw [collectByStatus.eq_def]
      simp only [hs]
      rw [ih1 (fun nt hm => h nt (deep_sub_children cs rest n c nt hm)),
          ih2 (fun nt hm => h nt (deep_sub_rest rest n c (some cs) nt hm))]
      simp
      intro hcon
      exact hst hcon.symm

theorem childHasStatusB_completed (ts : List (String × Task)) (hne : ts ≠ [])
    (h : ∀ nt ∈ deepTasksL ts, nt.2.core.status = some "completed") :
    childHasStatusB (some ts) "completed" true = true := by
  unfold childHasStatusB
  cases ts with
  | nil => exact absurd rfl hne
  | cons e rest =>
      simp only [if_true]
      rw [List.all_eq_true]
      intro nt hm
      rw [h nt hm]
      simp

theorem anyPaused_false (ts : List (String × Task))
    (h : ∀ nt ∈ deepTasksL ts, nt.2.core.status = some "completed") :
    (deepTasksL ts).any (fun nt => nt.2.core.status == some "paused") = false := by
  rw [List.any_eq_false]
  intro nt hm
  rw [h nt hm]
  simp

/-! ## Claim theorems -/

/-- C1: the public API's `execute` never reaches the engine — `api.js`
calls `p.execute(workflow, callback)`, but `engine/processus.js` does not
export `execute` (it is a module-private `const`, absent from both the
named exports and the default export object), so for every well-formed
workflow the call throws a `TypeError` instead of invoking the engine and
returning the final instance through the callback. -/
theorem c1_api_execute_throws (hs : Handlers) (now : Int) (env : List (String × String))
    (newId : String) (fuel : Nat) (st : FileStore) (wf : Workflow) :
    apiExecute hs now env newId fuel st (some wf) =
      .threw "TypeError: p.execute is not a function" := rfl

/-- C2: resolving `parameters.log = "val=$[environment.HOME]"` with
`HOME=/tmp` does not leave the field literally equal to `"val=/tmp"`.  The
escape chain in `setTaskDataValues` uses `.replace(/\b/g, "\\b")`, whose
pattern is the regular-expression word boundary rather than the backspace
character, so the spliced value re-parses to `"val=/\x08tmp\x08"` with a
backspace inserted at each word boundary of the resolved string. -/
theorem c2_embedded_reference_splice :
    c2Log = some "val=/\x08tmp\x08" ∧ c2Log ≠ some "val=/tmp" :=
  ⟨rfl, by decide⟩

/-- C3 counterexample: a single `saveInstance` call for a fresh id writes
no historical record at all (the file backend archives only a pre-existing
current record), refuting "after N saveInstance calls the store holds
exactly N historical records" at N = 1. -/
theorem c3_counterexample :
    historyCount (saveInstanceF c3Wf ⟨[], []⟩) "w" = 0 ∧ (0 : Nat) ≠ 1 :=
  ⟨rfl, by decide⟩

/-- C3 amended: every `saveInstance` call writes the current record keyed by
the instance id, but the file backend archives a timestamp-suffixed
historical record only when a current record already exists — so N
consecutive saves for a fresh id leave exactly N − 1 historical records.
The mongo backend appends one history row on every successful save. -/
theorem c3_amended (wfs : List Workflow) (i : String)
    (hne : wfs ≠ []) (hall : ∀ wf ∈ wfs, wf.id = some i)
    (hasId : Bool) (mwf : Workflow) (mst mst' : MongoStore)
    (hm : saveInstanceM hasId mwf mst = some mst') :
    historyCount (wfs.foldl (fun s wf => saveInstanceF wf s) ⟨[], []⟩) i = wfs.length - 1 ∧
    mst'.history.length = mst.history.length + 1 := by
  constructor
  · cases wfs with
    | nil => exact absurd rfl hne
    | cons w rest =>
        have hid : w.id = some i := hall w (by simp)
        have h0 : lookupA (⟨[], []⟩ : FileStore).current i = none := rfl
        have hfirst : historyCount (saveInstanceF w ⟨[], []⟩) i = historyCount (⟨[], []⟩ : FileStore) i :=
          saveF_hist_none w ⟨[], []⟩ i hid h0
        have hc : (lookupA (saveInstanceF w ⟨[], []⟩).current i).isSome := by
          simp [saveF_current w ⟨[], []⟩ i hid]
        have hrest := fold_saves rest (saveInstanceF w ⟨[], []⟩) i hc
          (fun wf hm2 => hall wf (by simp [hm2]))
        simp only [List.foldl_cons, List.length_cons]
        rw [hrest, hfirst]
        simp [historyCount]
  · unfold saveInstanceM at hm
    cases hasId with
    | false =>
        simp only [Bool.false_eq_true, if_false] at hm
        cases hm
        simp
    | true =>
        simp only [if_true] at hm
        cases hlook : lookupA mst.instances (mwf.id.getD "undefined") with
        | none => rw [hlook] at hm; cases hm
        | some r => rw [hlook] at hm; cases hm; simp

/-- C3 amended, witness: two saves of the same fresh id leave one
historical record, and one mongo insert appends one history row. -/
theorem c3_amended_witness :
    historyCount ([c3Wf, c3Wf].foldl (fun s wf => saveInstanceF wf s) ⟨[], []⟩) "w" = 1 ∧
    (MongoStore.mk [("w", c3Wf)] [("w", c3Wf)]).history.length =
      (MongoStore.mk [] []).history.length + 1 :=
  c3_amended [c3Wf, c3Wf] "w" (by simp)
    (by intro wf hw
        rcases List.mem_cons.mp hw with h | h
        · subst h; rfl
        · rcases List.mem_cons.mp h with h2 | h2
          · subst h2; rfl
          · cases h2)
    false c3Wf ⟨[], []⟩ ⟨[("w", c3Wf)], [("w", c3Wf)]⟩ rfl

/-- C4 counterexample: executing an instance whose every task is already
`completed` is not a no-op on history — the scheduler persists
unconditionally at save point A and again at save point C, so the store's
history grows by two records even though nothing was dispatched. -/
theorem c4_counterexample :
    c4Store.history.length = 0 ∧
      (c4Run.1.map fun o => o.st.history.length) = some 2 := by
  constructor
  · rfl
  · simp [c4Run, executeDriver, realExec, c4Wf, c4Store, doneLeaf, saveInstanceF, lookupA,
      validateWorkflow, setTaskStatusWaiting, setWaitingL, addEnvVars, runPrePost,
      openTasksL, childHasStatusB, deepTasksL, collectByStatus, dedupByName, phase1, phase2,
      lookupPath, updatePath, strTruthy, jsObjInsert, replaceA, Task.core, isBlocking, getBoolean]

/-- Saving over an existing current record appends exactly one history
record. -/
theorem saveF_len (wf : Workflow) (st : FileStore) (i : String) (r : Workflow)
    (hid : wf.id = some i) (h : lookupA st.current i = some r) :
    (saveInstanceF wf st).history.length = st.history.length + 1 := by
  unfold saveInstanceF
  rw [hid]
  simp only [Option.getD_some]
  rw [h]
  simp

/-- C4 amended: executing an instance whose (nonempty) task tree is entirely
`completed` dispatches nothing and leaves every task object and the
`completed` instance status intact, but it is not a no-op on persistence:
the pass saves at point A and point C, so the store's history grows by
exactly two records. -/
theorem c4_amended (hs : Handlers) (now : Int) (env : List (String × String)) (newId : String)
    (fuel : Nat) (wf : Workflow) (st : FileStore) (i : String) (ts : List (String × Task))
    (r : Workflow)
    (htasks : wf.tasks = some ts) (hne : ts ≠ [])
    (hall : ∀ nt ∈ deepTasksL ts, nt.2.core.status = some "completed")
    (hpre : wf.preW = none) (hpost : wf.postW = none)
    (hid : wf.id = some i) (hine : i ≠ "")
    (hcur : lookupA st.current i = some r) :
    executeDriver hs now env newId (fuel + 1) wf st =
      (some ⟨none, { wf with environment := some env, status := some "completed" },
        saveInstanceF { wf with environment := some env, status := some "completed" }
          (saveInstanceF { wf with environment := some env, status := some "open" } st)⟩,
       { wf with environment := some env }) ∧
    (saveInstanceF { wf with environment := some env, status := some "completed" }
        (saveInstanceF { wf with environment := some env, status := some "open" } st)).history.length =
      st.history.length + 2 := by
  have hwfv : validateWorkflow newId (addEnvVars env wf) =
      { wf with environment := some env, status := some "open" } := by
    unfold validateWorkflow setTaskStatusWaiting addEnvVars
    simp only [htasks]
    rw [setWaitingL_id ts (fun nt hm => by rw [hall nt hm]; rfl)]
    simp only [hid, strTruthy]
    simp [hine]
  have hrun : realExec hs now (fuel + 1) { wf with environment := some env, status := some "open" } st =
      some (none, { wf with environment := some env, status := some "completed" },
        saveInstanceF { wf with environment := some env, status := some "completed" }
          (saveInstanceF { wf with environment := some env, status := some "open" } st)) := by
    rw [realExec.eq_def]
    simp only [htasks, Option.getD_some]
    rw [anyPaused_false ts hall]
    simp only [Bool.false_eq_true, if_false]
    rw [openTasksL_id now ts hall]
    rw [collectByStatus_nil "open" [] ts hall (by decide)]
    simp only [dedupByName, List.foldl_nil, phase1]
    simp only [List.isEmpty_nil, if_true]
    rw [childHasStatusB_completed ts hne hall]
    simp only [if_true]
  constructor
  · simp only [executeDriver]
    rw [hwfv]
    have hpre2 : ({ wf with environment := some env, status := some "open" } : Workflow).preW = none := hpre
    rw [hpre2]
    simp only [runPrePost]
    have heta : ({ wf with environment := some env, status := some "open", preW := none } : Workflow) =
        { wf with environment := some env, status := some "open" } := by
      cases wf
      simp_all
    rw [heta, hrun]
    simp only [hpost, runPrePost]
    have heta2 : ({ wf with environment := some env, status := some "completed", postW := none } : Workflow) =
        { wf with environment := some env, status := some "completed" } := by
      cases wf
      simp_all
    rw [heta2]
    simp [hpre, hpost, addEnvVars]
  · have hid1 : ({ wf with environment := some env, status := some "open" } : Workflow).id = some i := hid
    have hid2 : ({ wf with environment := some env, status := some "completed" } : Workflow).id = some i := hid
    have hlen1 := saveF_len { wf with environment := some env, status := some "open" } st i r hid1 hcur
    have hcur2 := saveF_current { wf with environment := some env, status := some "open" } st i hid1
    have hlen2 := saveF_len { wf with environment := some env, status := some "completed" }
      (saveInstanceF { wf with environment := some env, status := some "open" } st) i
      { wf with environment := some env, status := some "open" } hid2 hcur2
    omega

/-- C4 amended, witness: the concrete completed instance `c4Wf` run with
one unit of scheduler fuel. -/
theorem c4_amended_witness :
    executeDriver noHandlers 100 [("HOME", "/tmp")] "fresh" 1 c4Wf c4Store =
      (some ⟨none, { c4Wf with environment := some [("HOME", "/tmp")], status := some "completed" },
        saveInstanceF { c4Wf with environment := some [("HOME", "/tmp")], status := some "completed" }
          (saveInstanceF { c4Wf with environment := some [("HOME", "/tmp")], status := some "open" } c4Store)⟩,
       { c4Wf with environment := some [("HOME", "/tmp")] }) ∧
    (saveInstanceF { c4Wf with environment := some [("HOME", "/tmp")], status := some "completed" }
        (saveInstanceF { c4Wf with environment := some [("HOME", "/tmp")], status := some "open" } c4Store)).history.length =
      c4Store.history.length + 2 :=
  c4_amended noHandlers 100 [("HOME", "/tmp")] "fresh" 0 c4Wf c4Store "w1" [("t1", doneLeaf)]
    c4Wf rfl (by simp)
    (by intro nt hm
        simp [deepTasksL, doneLeaf] at hm
        subst hm
        rfl)
    rfl rfl rfl (by decide) rfl

/-- C5 counterexample: the caller's instance object is not left unchanged —
`execute` runs `addEnvVars` on the caller's object before the deep clone in
`validateWorkflow`, so the caller observes a new `environment` field. -/
theorem c5_counterexample :
    c5Wf.environment = none ∧ c5Run.2.environment = some [("HOME", "/tmp")] :=
  ⟨rfl, rfl⟩

/-- C5 amended: `execute` deep-clones before assigning the id and task
statuses, so the caller's object never gains an id, a status or any task
mutation; the one caller-visible effect is that `environment` is overwritten
with the process-environment snapshot before the clone is taken. -/
theorem c5_amended (hs : Handlers) (now : Int) (env : List (String × String)) (newId : String)
    (fuel : Nat) (wf : Workflow) (st : FileStore) :
    (executeDriver hs now env newId fuel wf st).2 = { wf with environment := some env } := rfl

/-- C6 counterexample: an instance whose top-level task mapping is empty
ends a pass with status `open`, not `completed`, even though "every
top-level task is completed" holds vacuously — `childHasStatus` returns
false for an empty tree, so the completion assignment is skipped. -/
theorem c6_counterexample :
    (c6Run.1.map fun o => (o.wf.status, o.wf.tasks)) = some (some "open", some []) ∧
      (some "open" : Option String) ≠ some "completed" := by
  constructor
  · simp [c6Run, executeDriver, realExec, c6Wf, saveInstanceF, lookupA,
      validateWorkflow, setTaskStatusWaiting, setWaitingL, addEnvVars, runPrePost,
      openTasksL, childHasStatusB, deepTasksL, collectByStatus, dedupByName, phase1, phase2,
      strTruthy]
  · decide

/-- The deep completion check `childHasStatus(parent, s, true)` holds iff
the task tree is nonempty and every deeply reachable task has the status. -/
theorem childHasStatusB_iff (cs : Option (List (String × Task))) (s : String) :
    childHasStatusB cs s true = true ↔
      (cs.getD [] ≠ [] ∧ ∀ nt ∈ deepTasksL (cs.getD []), nt.2.core.status = some s) := by
  cases cs with
  | none => simp [childHasStatusB]
  | some l =>
      cases l with
      | nil => simp [childHasStatusB]
      | cons e rest =>
          simp [childHasStatusB, List.all_eq_true]

/-- C6 amended: at the end of a terminating execution pass entered with
status `open`, the instance status is `completed` iff the pass reported no
error, the task tree is nonempty and every deeply reachable task is
`completed` — so an instance whose task mapping is empty ends `open`, not
`completed`; the status is `error` iff the pass's batch reported a
dispatched-task failure not absorbed by `ignoreError` (in this model the
only source of a reported error, since store writes are modelled as always
succeeding — the source's save-error returns leave the status unchanged and
are outside the model); otherwise the status remains `open`. -/
theorem c6_amended (hs : Handlers) (now : Int) (fuel : Nat) (wf : Workflow) (st : FileStore)
    (err : Option String) (wf' : Workflow) (st' : FileStore)
    (hrun : realExec hs now fuel wf st = some (err, wf', st'))
    (hstat : wf.status = some "open") :
    ((wf'.status = some "completed") ↔
      (err = none ∧ wf'.tasks.getD [] ≠ [] ∧
        ∀ nt ∈ deepTasksL (wf'.tasks.getD []), nt.2.core.status = some "completed"))
    ∧ ((wf'.status = some "error") ↔ err.isSome = true)
    ∧ (err = none → wf'.status = some "completed" ∨ wf'.status = some "open") := by
  induction fuel generalizing wf st with
  | zero => simp [realExec] at hrun
  | succ fuel ih =>
      rw [realExec.eq_def] at hrun
      simp only [] at hrun
      by_cases hp : ((deepTasksL (wf.tasks.getD [])).any fun nt => nt.2.core.status == some "paused") = true
      · rw [if_pos hp] at hrun
        simp only [Option.some.injEq, Prod.mk.injEq] at hrun
        obtain ⟨he, hw, hst2⟩ := hrun
        subst he
        subst hw
        refine ⟨?_, ?_, ?_⟩
        · constructor
          · intro hcomp
            rw [hcomp] at hstat
            simp at hstat
          · intro ⟨_, hne2, hall2⟩
            rw [List.any_eq_true] at hp
            obtain ⟨nt, hmem, hpau⟩ := hp
            have := hall2 nt hmem
            rw [this] at hpau
            simp at hpau
        · constructor
          · intro herr2
            rw [herr2] at hstat
            simp at hstat
          · intro hs2
            simp at hs2
        · intro _
          exact Or.inr hstat
      · rw [if_neg hp] at hrun
        obtain ⟨wid, wname, wstatus, wenv, wtasks, wpre, wpost⟩ := wf
        simp only at hstat
        cases wtasks with
        | none =>
            simp only [Option.getD_none] at hrun
            rw [collectByStatus.eq_def] at hrun
            simp only [dedupByName, List.foldl_nil] at hrun
            rw [phase1.eq_def] at hrun
            simp only [List.isEmpty_nil, if_true, childHasStatusB] at hrun
            simp only [Option.some.injEq, Prod.mk.injEq] at hrun
            obtain ⟨he, hw, hst2⟩ := hrun
            subst he
            subst hw
            refine ⟨?_, ?_, ?_⟩
            · constructor
              · intro hcomp
                rw [hstat] at hcomp
                simp at hcomp
              · intro ⟨_, hne2, _⟩
                exact absurd rfl hne2
            · constructor
              · intro herr2
                rw [hstat] at herr2
                simp at herr2
              · intro hs2
                simp at hs2
            · intro _
              exact Or.inr hstat
        | some ts0 =>
            simp only [Option.getD_some] at hrun
            generalize hL : openTasksL now ts0 = L at hrun
            generalize hops : dedupByName (collectByStatus "open" [] L) = ops at hrun
            generalize hph : phase1 ops L = stp at hrun
            obtain ⟨ts2, ex⟩ := stp
            cases ex with
            | nil =>
                simp only [List.isEmpty_nil, if_true] at hrun
                by_cases hch : childHasStatusB (some ts2) "completed" true = true
                · rw [if_pos hch] at hrun
                  simp only [Option.some.injEq, Prod.mk.injEq] at hrun
                  obtain ⟨he, hw, hst2⟩ := hrun
                  subst he
                  refine ⟨?_, ?_, ?_⟩
                  · rw [← hw]
                    constructor
                    · intro _
                      exact ⟨rfl, (childHasStatusB_iff (some ts2) "completed").mp hch⟩
                    · intro _
                      rfl
                  · rw [← hw]
                    constructor
                    · intro herr2
                      simp at herr2
                    · intro hs2
                      simp at hs2
                  · intro _
                    left
                    rw [← hw]
                · rw [if_neg hch] at hrun
                  simp only [Option.some.injEq, Prod.mk.injEq] at hrun
                  obtain ⟨he, hw, hst2⟩ := hrun
                  subst he
                  refine ⟨?_, ?_, ?_⟩
                  · rw [← hw]
                    constructor
                    · intro hcomp
                      rw [hstat] at hcomp
                      simp at hcomp
                    · intro ⟨_, hrhs1, hrhs2⟩
                      exact absurd ((childHasStatusB_iff (some ts2) "completed").mpr ⟨hrhs1, hrhs2⟩) hch
                  · rw [← hw]
                    constructor
                    · intro herr2
                      rw [hstat] at herr2
                      simp at herr2
                    · intro hs2
                      simp at hs2
                  · intro _
                    right
                    rw [← hw]
                    exact hstat
            | cons e2 ex2 =>
                simp only [List.isEmpty_cons, Bool.false_eq_true, if_false] at hrun
                generalize hph2 : phase2 now hs (Option.getD (Workflow.id
                  { id := wid, name := wname, status := wstatus, environment := wenv,
                    tasks := some ts2, preW := wpre, postW := wpost }) "undefined")
                    (e2 :: ex2) ts2 = rn at hrun
                obtain ⟨ts3, er2⟩ := rn
                cases er2 with
                | none =>
                    exact ih _ _ hrun (by simp only []; exact hstat)
                | some e =>
                    simp only [Option.some.injEq, Prod.mk.injEq] at hrun
                    obtain ⟨he, hw, hst2⟩ := hrun
                    subst he
                    refine ⟨?_, ?_, ?_⟩
                    · rw [← hw]
                      constructor
                      · intro hcomp
                        simp at hcomp
                      · intro ⟨hc1, _, _⟩
                        cases hc1
                    · rw [← hw]
                      constructor
                      · intro _
                        rfl
                      · intro _
                        rfl
                    · intro hc
                      cases hc

/-- C6 amended, witness: one scheduler pass on a concrete empty-mapping
instance terminates without error and with status still `open` (neither
`completed` nor `error`). -/
theorem c6_amended_witness :
    (realExec noHandlers 0 1 c6wWf ⟨[], []⟩ =
      some (none, c6wWf, ⟨[("e", c6wWf)], [("e", c6wWf)]⟩)) ∧
    c6wWf.status = some "open" ∧
    (((c6wWf.status = some "completed") ↔
      ((none : Option String) = none ∧ c6wWf.tasks.getD [] ≠ [] ∧
        ∀ nt ∈ deepTasksL (c6wWf.tasks.getD []), nt.2.core.status = some "completed"))
    ∧ ((c6wWf.status = some "error") ↔ (none : Option String).isSome = true)
    ∧ ((none : Option String) = none →
        c6wWf.status = some "completed" ∨ c6wWf.status = some "open")) := by
  refine ⟨?_, rfl, ?_⟩
  · simp [realExec, c6wWf, saveInstanceF, lookupA, replaceA, openTasksL, childHasStatusB,
      deepTasksL, collectByStatus, dedupByName, phase1]
  · exact c6_amended noHandlers 0 1 c6wWf ⟨[], []⟩ none c6wWf ⟨[("e", c6wWf)], [("e", c6wWf)]⟩
      (by simp [realExec, c6wWf, saveInstanceF, lookupA, replaceA, openTasksL, childHasStatusB,
        deepTasksL, collectByStatus, dedupByName, phase1]) rfl

/-- C7: an update targeting an instance whose stored record is already
`completed` fails with the dedicated "already completed" error; nothing is
merged, nothing is re-executed, and the store is returned unchanged (the
result does not even depend on the injected tasks). -/
theorem c7_update_already_completed (hs : Handlers) (now : Int) (env : List (String × String))
    (newId : String) (fuel : Nat) (st : FileStore) (wid : String)
    (tasks : List (String × Task)) (wf : Workflow)
    (h1 : lookupA st.current wid = some wf) (h2 : wf.status = some "completed") :
    updateTasksM hs now env newId fuel st wid tasks =
      (some ("Update failed, workflow [" ++ wid ++ "] has already completed!"), none, st) := by
  unfold updateTasksM
  rw [h1]
  simp [h2]

/-- C7 witness: the dedicated failure on a concrete completed instance. -/
theorem c7_update_already_completed_witness :
    lookupA c7Store.current "u1" = some c7DoneWf ∧ c7DoneWf.status = some "completed" ∧
    updateTasksM noHandlers 0 [] "n" 1 c7Store "u1" [] =
      (some ("Update failed, workflow [" ++ "u1" ++ "] has already completed!"), none, c7Store) :=
  ⟨rfl, rfl, c7_update_already_completed noHandlers 0 [] "n" 1 c7Store "u1" [] c7DoneWf rfl rfl⟩

/-- C8: a dispatched task (status already `executing`) skips its handler
iff `skipIf === true`, `errorIf === true`, or the `handler` field is falsy;
a skipped task records `handlerExecuted = false` and its outcome does not
depend on the handler pool at all, a skipped task with `skipIf` true (and
`errorIf` not true) still completes, a task with no handler (and `errorIf`
not true) completes immediately, and a non-skipped task does consult the
handler pool. -/
theorem c8_skip_semantics (now : Int) (hs : Handlers) (wfId tname : String) (t : Task)
    (hstat : t.core.status = some "executing") :
    (skipCheck t.core = true ↔
      (t.core.skipIf = some (CVal.b true) ∨ t.core.errorIf = some (CVal.b true) ∨
        strTruthy t.core.handler = false)) ∧
    (skipCheck t.core = true →
      ((executeTask now hs wfId tname t).2.core.handlerExecuted = some false ∧
        ∀ hs2 : Handlers, executeTask now hs wfId tname t = executeTask now hs2 wfId tname t)) ∧
    (t.core.skipIf = some (CVal.b true) → t.core.errorIf ≠ some (CVal.b true) →
      (executeTask now hs wfId tname t).2.core.status = some "completed") ∧
    (t.core.handler = none → t.core.errorIf ≠ some (CVal.b true) →
      (executeTask now hs wfId tname t).2.core.status = some "completed") ∧
    (skipCheck t.core = false →
      (executeTask now noHandlers wfId tname t).1.isSome = true ∧
        (executeTask now okHandlers wfId tname t).1 = none) := by
  obtain ⟨c, cs⟩ := t
  simp only [Task.core] at hstat
  refine ⟨?_, ?_, ?_, ?_, ?_⟩
  · simp [skipCheck, Task.core, or_assoc]
  · intro hsk
    have hsk1 : skipCheck { c with timeStarted := some now } = true := hsk
    constructor
    · simp only [executeTask, Task.mapCore, Task.core, hsk1]
      by_cases herr : c.errorIf = some (CVal.b true)
      · simp [herr, Task.core]
      · simp [herr, Task.core, hstat]
    · intro hs2
      simp only [executeTask, Task.mapCore, Task.core, hsk1]
      simp
  · intro hskip herr
    simp only [Task.core] at hskip herr
    have hsk1 : skipCheck { c with timeStarted := some now } = true := by
      simp [skipCheck, Task.core, hskip]
    simp only [executeTask, Task.mapCore, Task.core, hsk1]
    simp [herr, Task.core, hstat]
  · intro hnoh herr
    simp only [Task.core] at hnoh herr
    have hsk1 : skipCheck { c with timeStarted := some now } = true := by
      simp [skipCheck, Task.core, hnoh, strTruthy]
    simp only [executeTask, Task.mapCore, Task.core, hsk1]
    simp [herr, Task.core, hstat]
  · intro hsk
    have hsk1 : skipCheck { c with timeStarted := some now } = false := hsk
    have hh : strTruthy c.handler = true := by
      have := hsk
      simp [skipCheck, Task.core] at this
      simp [this]
    obtain ⟨hname, hhn⟩ : ∃ hname, c.handler = some hname := by
      cases hch : c.handler with
      | none => rw [hch] at hh; simp [strTruthy] at hh
      | some x => exact ⟨x, rfl⟩
    constructor
    · simp only [executeTask, Task.mapCore, Task.core, hsk1]
      simp [hhn, noHandlers, Option.bind]
    · simp only [executeTask, Task.mapCore, Task.core, hsk1]
      simp [hhn, okHandlers, Option.bind, Task.core, hstat]

/-- C8 witness: the concrete `skipIf`-true task completes without invoking
any handler. -/
theorem c8_skip_semantics_witness :
    c8SkipTask.core.status = some "executing" ∧
    ((skipCheck c8SkipTask.core = true ↔
      (c8SkipTask.core.skipIf = some (CVal.b true) ∨ c8SkipTask.core.errorIf = some (CVal.b true) ∨
        strTruthy c8SkipTask.core.handler = false)) ∧
    (skipCheck c8SkipTask.core = true →
      ((executeTask 100 noHandlers "W" "t1" c8SkipTask).2.core.handlerExecuted = some false ∧
        ∀ hs2 : Handlers, executeTask 100 noHandlers "W" "t1" c8SkipTask =
          executeTask 100 hs2 "W" "t1" c8SkipTask)) ∧
    (c8SkipTask.core.skipIf = some (CVal.b true) → c8SkipTask.core.errorIf ≠ some (CVal.b true) →
      (executeTask 100 noHandlers "W" "t1" c8SkipTask).2.core.status = some "completed") ∧
    (c8SkipTask.core.handler = none → c8SkipTask.core.errorIf ≠ some (CVal.b true) →
      (executeTask 100 noHandlers "W" "t1" c8SkipTask).2.core.status = some "completed") ∧
    (skipCheck c8SkipTask.core = false →
      (executeTask 100 noHandlers "W" "t1" c8SkipTask).1.isSome = true ∧
        (executeTask 100 okHandlers "W" "t1" c8SkipTask).1 = none)) :=
  ⟨rfl, c8_skip_semantics 100 noHandlers "W" "t1" c8SkipTask rfl⟩

/-- C9: when the handler reports an error and the returned task has
`ignoreError === true`, the error is cleared — `executeTask` reports `none`
to the batch, so neither the batch nor the instance is failed by this task —
and the task reverts to `executing` and then completes: status `completed`,
with `timeCompleted`, `handlerDuration` and `totalDuration` all set (the
reported message remains in `errorMsg`). -/
theorem c9_ignore_error (now : Int) (hs : Handlers) (wfId tname hname emsg : String)
    (t rt : Task) (fn : HandlerFn) (a b : Int)
    (hhandler : t.core.handler = some hname) (hne : hname ≠ "")
    (hskip : t.core.skipIf ≠ some (CVal.b true)) (herr : t.core.errorIf ≠ some (CVal.b true))
    (hload : hs hname = some fn)
    (hrun : fn wfId tname (t.mapCore fun c =>
      { c with timeStarted := some now, handlerExecuted := some true }) = (some emsg, rt))
    (hig : rt.core.ignoreError = some (CVal.b true))
    (hts : rt.core.timeStarted = some a) (hto : rt.core.timeOpened = some b) :
    executeTask now hs wfId tname t =
      (none, rt.mapCore fun c =>
        { c with errorMsg := some emsg, status := some "completed",
                 timeCompleted := some now, handlerDuration := some (now - a),
                 totalDuration := some (now - b) }) := by
  obtain ⟨c, cs⟩ := t
  obtain ⟨rc, rcs⟩ := rt
  simp only [Task.core] at hhandler hskip herr hig hts hto
  simp only [Task.mapCore] at hrun
  have hsk1 : skipCheck { c with timeStarted := some now } = false := by
    simp [skipCheck, hhandler, hskip, herr, strTruthy, hne]
  simp only [hhandler] at hrun
  simp only [executeTask, Task.mapCore, Task.core, hsk1]
  simp only [Bool.not_false, if_true, hhandler, Option.some_bind]
  rw [hload]
  simp only [hrun]
  simp [Task.mapCore, Task.core, hig, osub, hts, hto]

/-- C9 witness: the concrete `ignoreError` task run against the failing
handler ends completed with the batch error cleared. -/
theorem c9_ignore_error_witness :
    c9Task.core.handler = some "test" ∧ failHandlers "test" = some failingHandler ∧
    failingHandler "W" "t1" c9Ready = (some "boom", c9Ready) ∧
    c9Ready.core.ignoreError = some (CVal.b true) ∧
    executeTask 100 failHandlers "W" "t1" c9Task =
      (none, c9Ready.mapCore fun c =>
        { c with errorMsg := some "boom", status := some "completed",
                 timeCompleted := some 100, handlerDuration := some (100 - 100),
                 totalDuration := some (100 - 1) }) :=
  ⟨rfl, rfl, rfl, rfl,
    c9_ignore_error 100 failHandlers "W" "t1" "test" "boom" c9Task c9Ready failingHandler 100 1
      rfl (by decide) (by decide) (by decide) rfl rfl rfl rfl rfl⟩

/-- C10 counterexample: a blocking task that is already `completed` does
not prevent its later siblings from being opened in that pass — the scan
continues past any task that is neither `open` nor `waiting`, so the
waiting sibling of a completed blocking task is opened. -/
theorem c10_counterexample :
    isBlocking c10DoneBlocking.core = true ∧
    (lookupA (openTasksL 7 c10Tasks) "b").map (fun t => t.core.status) = some (some "open") ∧
    (some (some "open") : Option (Option String)) ≠ some (some "waiting") := by
  refine ⟨rfl, ?_, by decide⟩
  simp [openTasksL, c10Tasks, c10DoneBlocking, waitLeaf, childHasStatusB, isBlocking, getBoolean,
    lookupA, Task.core, deepTasksL]

/-- The sibling scan of `openTasks` distributes over an append as long as
the leading segment contains no `open`/`waiting` blocking task (nothing
halts the scan). -/
theorem openTasksL_append (now : Int) (pre rest : List (String × Task))
    (hpre : ∀ e ∈ pre, ¬ ((e.2.core.status = some "open" ∨ e.2.core.status = some "waiting") ∧
      isBlocking e.2.core = true)) :
    openTasksL now (pre ++ rest) = openTasksL now pre ++ openTasksL now rest := by
  induction pre with
  | nil => simp [openTasksL]
  | cons e pre2 ih =>
      obtain ⟨m, t⟩ := e
      obtain ⟨d, ds⟩ := t
      have hne := hpre (m, Task.node d ds) (by simp)
      simp only [Task.core] at hne
      have ihr := ih (fun e2 hm => hpre e2 (by simp [hm]))
      by_cases hdo : d.status = some "open"
      · have hdb : isBlocking d = false := by
          rcases Bool.eq_false_or_eq_true (isBlocking d) with h | h
          · exact absurd ⟨Or.inl hdo, h⟩ hne
          · exact h
        rw [List.cons_append, openTasksL.eq_def]
        conv_rhs => rw [openTasksL.eq_def]
        simp only [hdo, beq_self_eq_true, if_true, hdb, Bool.false_eq_true, if_false]
        rw [ihr]
        simp
      · by_cases hdw : d.status = some "waiting"
        · have hdb : isBlocking d = false := by
            rcases Bool.eq_false_or_eq_true (isBlocking d) with h | h
            · exact absurd ⟨Or.inr hdw, h⟩ hne
            · exact h
          have hdb2 : isBlocking { d with status := some "open", timeOpened := some now } = false := hdb
          rw [List.cons_append, openTasksL.eq_def]
          conv_rhs => rw [openTasksL.eq_def]
          simp only [hdo, hdw, beq_self_eq_true, if_true, hdb, hdb2, Bool.false_eq_true, if_false]
          simp only [beq_iff_eq, if_neg hdo, if_pos rfl]
          rw [ihr]
          simp
        · rw [List.cons_append, openTasksL.eq_def]
          conv_rhs => rw [openTasksL.eq_def]
          simp only [beq_iff_eq, if_neg hdo, if_neg hdw]
          rw [ihr]
          simp

/-- C10 amended: a task in status `waiting` or `open` whose `blocking`
field coerces to true, and that the sibling scan reaches (no earlier
`open`/`waiting` blocking sibling), stops the scan: every later sibling is
left exactly as it was (not opened in that pass), while the blocking task
itself is opened and its own children are processed by the ordinary,
unrestricted `openTasks` recursion.  A blocking task in any other status
(e.g. already `completed`) imposes no restriction on its siblings in that
pass. -/
theorem c10_amended (now : Int) (pre post : List (String × Task)) (n : String) (c : TaskCore)
    (cs : Option (List (String × Task)))
    (hpre : ∀ e ∈ pre, ¬ ((e.2.core.status = some "open" ∨ e.2.core.status = some "waiting") ∧
      isBlocking e.2.core = true))
    (hblock : isBlocking c = true)
    (hstat : c.status = some "open" ∨ c.status = some "waiting") :
    openTasksL now (pre ++ (n, Task.node c cs) :: post) =
      openTasksL now pre ++
        (n, Task.node
          (if c.status == some "open" then c
           else { c with status := some "open", timeOpened := some now })
          (if c.status == some "open" then
             (if childHasStatusB cs "waiting" false then
                (match cs with | some l => some (openTasksL now l) | none => none)
              else cs)
           else (match cs with | some l => some (openTasksL now l) | none => none))) :: post := by
  rw [openTasksL_append now pre ((n, Task.node c cs) :: post) hpre]
  rcases hstat with hstat | hstat
  · refine congrArg (fun l => openTasksL now pre ++ l) ?_
    rw [openTasksL.eq_def]
    simp [hstat, hblock]
  · refine congrArg (fun l => openTasksL now pre ++ l) ?_
    have hb2 : isBlocking { c with status := some "open", timeOpened := some now } = true := hblock
    rw [openTasksL.eq_def]
    simp [hstat, hblock, hb2]

/-- C10 amended, witness: a concrete waiting blocking task with a waiting
child and a waiting later sibling — the sibling stays untouched, the child
is opened normally. -/
theorem c10_amended_witness :
    isBlocking c10WaitBlocking.core = true ∧
    openTasksL 7 ([] ++ ("a", Task.node c10WaitBlocking.core c10WaitBlocking.children) ::
        [("b", waitLeaf)]) =
      openTasksL 7 [] ++
        ("a", Task.node
          (if c10WaitBlocking.core.status == some "open" then c10WaitBlocking.core
           else { c10WaitBlocking.core with status := some "open", timeOpened := some 7 })
          (if c10WaitBlocking.core.status == some "open" then
             (if childHasStatusB c10WaitBlocking.children "waiting" false then
                (match c10WaitBlocking.children with
                 | some l => some (openTasksL 7 l)
                 | none => none)
              else c10WaitBlocking.children)
           else (match c10WaitBlocking.children with
                 | some l => some (openTasksL 7 l)
                 | none => none))) ::
        [("b", waitLeaf)] :=
  ⟨rfl, c10_amended 7 [] [("b", waitLeaf)] "a" c10WaitBlocking.core c10WaitBlocking.children
    (by simp) rfl (Or.inr rfl)⟩

end EventFlow
